import Mathlib

/-!
Verification of the rate-limited Reddit content crawler
(`src/RedditDataScraper.py`) against its natural-language specification.

The Python source is shallowly embedded as executable Lean definitions:
pure string helpers become pure functions; the two retry wrappers become
functions over explicit scripts of call outcomes (the wrapped network
operation is external, so each attempt's observable outcome - the items
produced and the exception, if any, that ended it - is supplied as data);
the record-emitting traversal becomes explicit state passing over the
column-list container.  The external language detector (`langdetect`) is a
parameter `detect : String → Option String` where `none` models
`LangDetectException`; timestamp localization is a parameter
`localize : Nat → String` (its output string is never inspected).
-/

set_option maxHeartbeats 1000000

/-- The ASCII whitespace characters of Python: the set stripped by
`str.strip()` and the complement of the regex class `\S`. -/
def wsChar (c : Char) : Bool :=
  c == ' ' || c == '\t' || c == '\n' || c == '\r' || c == '\x0b' || c == '\x0c'

/-- Drop leading whitespace (Python `str.lstrip()`). -/
def lstripChars (l : List Char) : List Char := l.dropWhile wsChar

/-- Drop trailing whitespace (Python `str.rstrip()`). -/
def rstripChars : List Char → List Char
  | [] => []
  | c :: cs =>
    match rstripChars cs with
    | [] => if wsChar c then [] else [c]
    | d :: ds => c :: d :: ds

/-- Python `str.strip()`: drop leading and trailing whitespace. -/
def stripChars (l : List Char) : List Char := rstripChars (lstripChars l)

/-- Python `str.strip()` at the string level. -/
def pyStrip (s : String) : String := ⟨stripChars s.data⟩

/-- Drop the maximal leading run of non-whitespace characters
(the greedy `\S+`). -/
def dropNonWs (l : List Char) : List Char := l.dropWhile (fun c => !wsChar c)

/-- One anchored attempt of the pattern `http\S+|www\S+` (the pattern of
`clean_text`'s `re.sub`): if the list starts with a match, return the
remainder after the greedy match, else `none`.  The alternation is ordered
as in the source; `\S+` is greedy, so a match always extends to the next
whitespace character or the end of the string. -/
def tryMatch : List Char → Option (List Char)
  | c1 :: c2 :: c3 :: c4 :: rest =>
    if c1 = 'h' ∧ c2 = 't' ∧ c3 = 't' ∧ c4 = 'p' then
      match rest with
      | [] => none
      | d :: rest2 => if wsChar d then none else some (dropNonWs rest2)
    else if c1 = 'w' ∧ c2 = 'w' ∧ c3 = 'w' then
      if wsChar c4 then none else some (dropNonWs rest)
    else none
  | _ => none

/-- The scanning loop of `re.sub(r'http\S+|www\S+', '', text)`: at each
position try to match; on a match, delete it and continue after it,
otherwise keep the character and advance.  Fuel-indexed so that the
definition is structural (the fuel is an upper bound on the remaining
length; `removeUrls` supplies enough). -/
def removeUrlsAux : Nat → List Char → List Char
  | 0, _ => []
  | _ + 1, [] => []
  | fuel + 1, c :: cs =>
    match tryMatch (c :: cs) with
    | some rest => removeUrlsAux fuel rest
    | none => c :: removeUrlsAux fuel cs

/-- `re.sub(r'http\S+|www\S+', '', ·)` on character lists. -/
def removeUrls (l : List Char) : List Char := removeUrlsAux l.length l

/-- `clean_text` from the source: remove URL-pattern substrings, then strip
surrounding whitespace. -/
def clean_text (s : String) : String := ⟨stripChars (removeUrls s.data)⟩

/-- `is_english` from the source, parameterized by the external language
detector: texts whose *stripped* form is shorter than 10 characters are
rejected without consulting the detector; a detector failure
(`LangDetectException`, modelled as `none`) is rejection. -/
def is_english (detect : String → Option String) (text : String) : Bool :=
  if (pyStrip text).length < 10 then false
  else
    match detect text with
    | some lang => lang == "en"
    | none => false

/-- How one full `async for` pass over the wrapped generator ends:
normal completion, a `TooManyRequests`, or any other exception. -/
inductive GenOutcome where
  | done
  | rateLimited
  | failure
deriving DecidableEq

/-- How `handle_rate_limit` itself terminates: the `break` after a
completed iteration, re-raising `TooManyRequests` once retries are
exhausted, or re-raising a non-rate-limit exception. -/
inductive HRLFinal where
  | completed
  | raisedRateLimit
  | raisedOther
deriving DecidableEq

/-- Observable behaviour of one `handle_rate_limit` invocation: the items
yielded to the caller (in order), the sleep durations performed (in
order), and how the wrapper terminated. -/
structure HRLResult (α : Type) where
  yielded : List α
  sleeps : List Nat
  final : HRLFinal
deriving DecidableEq

/-- Loop body of `handle_rate_limit`.  The wrapped generator is external;
each entry of `runs` is one `async for` pass over it: the items it yields
before ending and the way it ends.  `retries` is the source's counter: it
only ever increases, the wait before retry `n` is `5 * n`, and once
`retries` reaches `max_retries` the `TooManyRequests` is re-raised.  Any
other exception is re-raised at once.  An exhausted `runs` list models a
generator that yields nothing further, ending the loop normally. -/
def hrlGo {α : Type} (retries max_retries : Nat) :
    List (List α × GenOutcome) → HRLResult α
  | [] => ⟨[], [], .completed⟩
  | (items, outcome) :: rest =>
    match outcome with
    | .done => ⟨items, [], .completed⟩
    | .failure => ⟨items, [], .raisedOther⟩
    | .rateLimited =>
      if retries < max_retries then
        let r := hrlGo (retries + 1) max_retries rest
        ⟨items ++ r.yielded, 5 * (retries + 1) :: r.sleeps, r.final⟩
      else ⟨items, [], .raisedRateLimit⟩

/-- `handle_rate_limit(generator, max_retries)` from the source
(the source's default for `max_retries` is 3). -/
def handle_rate_limit {α : Type} (runs : List (List α × GenOutcome))
    (max_retries : Nat) : HRLResult α :=
  hrlGo 0 max_retries runs

/-- Outcome of one invocation of the coroutine wrapped by
`fetch_with_retry`: a value, a `TooManyRequests` (with the optional
`Retry-After` header), or any other exception. -/
inductive CallResult (α : Type) where
  | ok (v : α)
  | rateLimited (retryAfter : Option Nat)
  | failed
deriving DecidableEq

/-- Observable behaviour of one `fetch_with_retry` invocation: the
returned value (`none` is the terminal-failure return), the number of
times the wrapped operation was invoked, and the sleeps performed. -/
structure FWRResult (α : Type) where
  value : Option α
  calls : Nat
  sleeps : List Nat
deriving DecidableEq

/-- Loop body of `fetch_with_retry`: `op n` is the outcome of the wrapped
coroutine's `(n+1)`-st invocation.  On `TooManyRequests` the wait is the
`Retry-After` hint or 30; on any other exception the wait is 5; in both
cases the loop sleeps only if attempts remain, and after `max_tries`
failures it returns `none` instead of raising.  The second argument is the
number of attempts remaining (`max_tries - tries`). -/
def fwrGo {α : Type} (op : Nat → CallResult α) : Nat → Nat → FWRResult α
  | _, 0 => ⟨none, 0, []⟩
  | tries, n + 1 =>
    match op tries with
    | .ok v => ⟨some v, 1, []⟩
    | .rateLimited h =>
      let w := h.getD 30
      if n = 0 then ⟨none, 1, []⟩
      else
        let r := fwrGo op (tries + 1) n
        ⟨r.value, r.calls + 1, w :: r.sleeps⟩
    | .failed =>
      if n = 0 then ⟨none, 1, []⟩
      else
        let r := fwrGo op (tries + 1) n
        ⟨r.value, r.calls + 1, 5 :: r.sleeps⟩

/-- `fetch_with_retry(coro_func, item_desc, max_tries)` from the source
(the source's default for `max_tries` is 3; `item_desc` only feeds
logging and is omitted). -/
def fetch_with_retry {α : Type} (op : Nat → CallResult α)
    (max_tries : Nat) : FWRResult α :=
  fwrGo op 0 max_tries

/-- A serialized table cell: a string, an integer, or the empty/null
marker used for absent optional fields. -/
inductive Cell where
  | str (s : String)
  | int (i : Int)
  | null
deriving DecidableEq

/-- Serialize an optional string field (`None` becomes the null marker). -/
def optCell : Option String → Cell
  | some s => .str s
  | none => .null

/-- The accumulated data container: one growable list per column, exactly
as built by `create_data_container` in the source. -/
structure DataContainer where
  text : List String
  title : List (Option String)
  upvotes : List Int
  type : List String
  date : List String
  post_flair : List (Option String)
  user_flair : List (Option String)
  parent_text : List (Option String)
  subreddit : List String
  category : List String
deriving DecidableEq

/-- `create_data_container()` from the source: every column empty. -/
def create_data_container : DataContainer :=
  ⟨[], [], [], [], [], [], [], [], [], []⟩

/-- The tabular artifact built by `pd.DataFrame(dataset)` in `main`: the
columns appear in the dictionary insertion order of
`create_data_container`, and absent optional fields serialize as the null
marker. -/
def toTable (d : DataContainer) : List (String × List Cell) :=
  [("text", d.text.map Cell.str),
   ("title", d.title.map optCell),
   ("upvotes", d.upvotes.map Cell.int),
   ("type", d.type.map Cell.str),
   ("date", d.date.map Cell.str),
   ("post_flair", d.post_flair.map optCell),
   ("user_flair", d.user_flair.map optCell),
   ("parent_text", d.parent_text.map optCell),
   ("subreddit", d.subreddit.map Cell.str),
   ("category", d.category.map Cell.str)]

/-- Python's `x or None` on an optional string attribute: the empty
string (falsy) also becomes `None`. -/
def orNone (o : Option String) : Option String :=
  match o with
  | some s => if s = "" then none else some s
  | none => none

/-- The emission path for one post Record (the ten `append` calls in
`process_submission`). -/
def appendPost (d : DataContainer) (title text : String) (upvotes : Int)
    (date : String) (post_flair user_flair : Option String)
    (subreddit category : String) : DataContainer :=
  { d with
    title := d.title ++ [some title]
    text := d.text ++ [text]
    upvotes := d.upvotes ++ [upvotes]
    type := d.type ++ ["post"]
    date := d.date ++ [date]
    post_flair := d.post_flair ++ [post_flair]
    user_flair := d.user_flair ++ [user_flair]
    parent_text := d.parent_text ++ [none]
    subreddit := d.subreddit ++ [subreddit]
    category := d.category ++ [category] }

/-- The emission path for one comment Record (the ten `append` calls in
`process_comments`; `title` and `post_flair` are always `None` there). -/
def appendComment (d : DataContainer) (text : String) (upvotes : Int)
    (date : String) (user_flair parent_text : Option String)
    (subreddit category : String) : DataContainer :=
  { d with
    title := d.title ++ [none]
    text := d.text ++ [text]
    upvotes := d.upvotes ++ [upvotes]
    type := d.type ++ ["comment"]
    date := d.date ++ [date]
    post_flair := d.post_flair ++ [none]
    user_flair := d.user_flair ++ [user_flair]
    parent_text := d.parent_text ++ [parent_text]
    subreddit := d.subreddit ++ [subreddit]
    category := d.category ++ [category] }

/-- What `comment.parent()` resolves to locally: nothing (falsy /
removed), the root Submission (which has no `body` attribute), or a
Comment object with its id and optional `body` attribute. -/
inductive ParentRef where
  | missing
  | subm (id : String)
  | comm (id : String) (body : Option String)
deriving DecidableEq

/-- A comment as consumed by `process_comments` (an element of
`submission.comments.list()`): `body = none` models an object without a
`body` attribute. -/
structure RComment where
  id : String
  body : Option String
  score : Int
  created_utc : Nat
  author_flair_text : Option String
  parent : ParentRef
deriving DecidableEq

/-- A submission as consumed by `process_submission`, with its locally
expanded, flattened comment list. -/
structure RSubmission where
  id : String
  title : Option String
  selftext : Option String
  score : Int
  created_utc : Nat
  link_flair_text : Option String
  author_flair_text : Option String
  subreddit : String
  comments : List RComment
deriving DecidableEq

/-- The parent-text resolution block of `process_comments` (lines
232-243 of the source): `parent_text` is set only when `comment.parent()`
is truthy, has a different id, has a `body` attribute, and that body,
cleaned, passes the language filter. -/
def resolveParentText (detect : String → Option String)
    (c : RComment) : Option String :=
  match c.parent with
  | .missing => none
  | .subm _ => none
  | .comm pid pbody =>
    if pid = c.id then none
    else
      match pbody with
      | none => none
      | some pb =>
        let possible := clean_text pb
        if is_english detect possible then some possible else none

/-- One iteration of the `for comment in submission.comments.list()` loop
in `process_comments`: skip objects without a `body` attribute, clean the
body, skip non-target-language comments, and emit one comment Record. -/
def processOneComment (detect : String → Option String)
    (localize : Nat → String) (subredditName category : String)
    (d : DataContainer) (c : RComment) : DataContainer :=
  match c.body with
  | none => d
  | some b =>
    let comment_text := clean_text b
    if is_english detect comment_text then
      appendComment d comment_text c.score (localize c.created_utc)
        (orNone c.author_flair_text) (resolveParentText detect c)
        subredditName category
    else d

/-- `process_comments` from the source.  The preceding
`fetch_with_retry(replace_more)` call only populates the local tree (its
result is discarded and its failures are swallowed), so the embedding
starts from the already-flattened `comments` list. -/
def process_comments (detect : String → Option String)
    (localize : Nat → String) (s : RSubmission) (category : String)
    (d : DataContainer) : DataContainer :=
  s.comments.foldl (processOneComment detect localize s.subreddit category) d

/-- `process_submission` from the source.  `loadOk` is whether the
`fetch_with_retry(submission.load)` call produced a value (`false` models
the `loaded is None` early return).  A submission whose combined
title+body text, cleaned, fails the language filter is dropped whole:
nothing is appended and `process_comments` is never reached. -/
def process_submission (detect : String → Option String)
    (localize : Nat → String) (s : RSubmission) (category : String)
    (loadOk : Bool) (d : DataContainer) : DataContainer :=
  if loadOk then
    let post_title := (s.title).getD ""
    let post_body := (s.selftext).getD ""
    let combined_text := pyStrip (post_title ++ "\n" ++ post_body)
    let cleaned_combined := clean_text combined_text
    if is_english detect cleaned_combined then
      let d1 := appendPost d (clean_text post_title) (clean_text post_body)
        s.score (localize s.created_utc) (orNone s.link_flair_text)
        (orNone s.author_flair_text) s.subreddit category
      process_comments detect localize s category d1
    else d
  else d

/-- How the `try` body of one pass over a subreddit in
`fetch_subreddit_content` ends. -/
inductive SubOutcome where
  | success
  | tooMany (retryAfter : Option Nat)
  | forbidden
  | notFound
  | failure
deriving DecidableEq

/-- One pass of the `try` body for a subreddit: the records it appends to
the shared container before it ends, and how it ends. -/
structure SubAttempt (α : Type) where
  rows : List α
  outcome : SubOutcome

/-- How the per-subreddit retry loop left a subreddit. -/
inductive SubStatus where
  | completed
  | skippedForbidden
  | skippedNotFound
  | skippedError
  | exhausted
deriving DecidableEq

/-- Observable behaviour of the per-subreddit loop: records appended,
passes started, sleeps performed, and the final status. -/
structure SubResult (α : Type) where
  rows : List α
  attemptsStarted : Nat
  sleeps : List Nat
  status : SubStatus
deriving DecidableEq

/-- The `while tries < max_tries` loop of `fetch_subreddit_content` for
one subreddit.  The traversal body (the listings plus their
`process_submission` calls) is external network work, so `script t` gives
the observable outcome of the pass begun with `tries = t`.  `success`,
`Forbidden`, `NotFound` and any other exception all `break` (the latter
three without consuming a retry); `TooManyRequests` sleeps
(`Retry-After` hint or 30) and retries, and exhaustion of the cap moves
on silently.  The second argument is the number of passes remaining. -/
def runSubredditAux {α : Type} (script : Nat → SubAttempt α) :
    Nat → Nat → SubResult α
  | _, 0 => ⟨[], 0, [], .exhausted⟩
  | tries, n + 1 =>
    let a := script tries
    match a.outcome with
    | .success => ⟨a.rows, 1, [], .completed⟩
    | .forbidden => ⟨a.rows, 1, [], .skippedForbidden⟩
    | .notFound => ⟨a.rows, 1, [], .skippedNotFound⟩
    | .failure => ⟨a.rows, 1, [], .skippedError⟩
    | .tooMany h =>
      let w := h.getD 30
      let r := runSubredditAux script (tries + 1) n
      ⟨a.rows ++ r.rows, r.attemptsStarted + 1, w :: r.sleeps, r.status⟩

/-- The per-subreddit loop with the source's `max_tries = 3`. -/
def runSubreddit {α : Type} (script : Nat → SubAttempt α) : SubResult α :=
  runSubredditAux script 0 3

/-- Final output of `fetch_subreddit_content` over an ordered subreddit
list: all records in emission order plus, per subreddit, its final status
and the number of passes started. -/
structure CrawlResult (α : Type) where
  rows : List α
  subs : List (SubStatus × Nat)
deriving DecidableEq

/-- `fetch_subreddit_content` from the source: iterate the subreddits in
order, run the bounded per-subreddit retry loop for each, and accumulate
every appended record in the one shared container. -/
def fetch_subreddit_content {α : Type}
    (scripts : List (Nat → SubAttempt α)) : CrawlResult α :=
  scripts.foldl
    (fun acc sc =>
      let r := runSubreddit sc
      ⟨acc.rows ++ r.rows, acc.subs ++ [(r.status, r.attemptsStarted)]⟩)
    ⟨[], []⟩

/-- One record-emitting operation on the container (the two emission
paths the source has). -/
inductive ScrapeOp where
  | post (s : RSubmission) (category : String) (loadOk : Bool)
  | coms (s : RSubmission) (category : String)

/-- Run a sequence of emission operations against the container. -/
def applyOps (detect : String → Option String) (localize : Nat → String) :
    List ScrapeOp → DataContainer → DataContainer
  | [], d => d
  | op :: ops, d =>
    let d1 :=
      match op with
      | .post s cat ok => process_submission detect localize s cat ok d
      | .coms s cat => process_comments detect localize s cat d
    applyOps detect localize ops d1

/-- The container is rectangular: all ten column lists have one length. -/
def rect (d : DataContainer) : Prop :=
  d.text.length = d.type.length ∧ d.title.length = d.type.length ∧
  d.upvotes.length = d.type.length ∧ d.date.length = d.type.length ∧
  d.post_flair.length = d.type.length ∧ d.user_flair.length = d.type.length ∧
  d.parent_text.length = d.type.length ∧ d.subreddit.length = d.type.length ∧
  d.category.length = d.type.length

/-- No position of the list starts a match of the URL pattern (the
characterization of `re.sub`'s fixed points). -/
def urlFree : List Char → Bool
  | [] => true
  | c :: cs => (tryMatch (c :: cs)).isNone && urlFree cs

theorem dropWhile_head_or (p : Char → Bool) (l : List Char) :
    l.dropWhile p = [] ∨ ∃ d ds, l.dropWhile p = d :: ds ∧ p d = false := by
  induction l with
  | nil => left; rfl
  | cons c cs ih =>
    by_cases h : p c
    · simpa [List.dropWhile_cons, h] using ih
    · right
      refine ⟨c, cs, ?_, by simpa using h⟩
      simp [List.dropWhile_cons, h]

theorem dropWhile_length_le (p : Char → Bool) (l : List Char) :
    (l.dropWhile p).length ≤ l.length := by
  induction l with
  | nil => simp
  | cons c cs ih =>
    by_cases h : p c
    · simp only [List.dropWhile_cons, h, if_pos]
      exact le_trans ih (by simp)
    · simp [List.dropWhile_cons, h]

theorem tryMatch_cons4 (c1 c2 c3 c4 : Char) (rest : List Char) :
    tryMatch (c1 :: c2 :: c3 :: c4 :: rest)
      = if c1 = 'h' ∧ c2 = 't' ∧ c3 = 't' ∧ c4 = 'p' then
          (match rest with
           | [] => none
           | d :: rest2 => if wsChar d then none else some (dropNonWs rest2))
        else if c1 = 'w' ∧ c2 = 'w' ∧ c3 = 'w' then
          (if wsChar c4 then none else some (dropNonWs rest))
        else none := rfl

theorem tryMatch_http (d : Char) (rest : List Char) (hd : wsChar d = false) :
    tryMatch ('h' :: 't' :: 't' :: 'p' :: d :: rest) = some (dropNonWs rest) := by
  rw [tryMatch_cons4, if_pos ⟨rfl, rfl, rfl, rfl⟩]
  simp [hd]

theorem tryMatch_www (d : Char) (rest : List Char) (hd : wsChar d = false) :
    tryMatch ('w' :: 'w' :: 'w' :: d :: rest) = some (dropNonWs rest) := by
  rw [tryMatch_cons4, if_neg (by simp), if_pos ⟨rfl, rfl, rfl⟩]
  simp [hd]

theorem tryMatch_some_inv {l r : List Char} (h : tryMatch l = some r) :
    ∃ d rest2,
      (l = 'h' :: 't' :: 't' :: 'p' :: d :: rest2 ∨
       l = 'w' :: 'w' :: 'w' :: d :: rest2)
      ∧ wsChar d = false ∧ r = dropNonWs rest2 := by
  match l with
  | [] => cases h
  | [c1] => cases h
  | [c1, c2] => cases h
  | [c1, c2, c3] => cases h
  | c1 :: c2 :: c3 :: c4 :: rest =>
    rw [tryMatch_cons4] at h
    by_cases h1 : c1 = 'h' ∧ c2 = 't' ∧ c3 = 't' ∧ c4 = 'p'
    · obtain ⟨rfl, rfl, rfl, rfl⟩ := h1
      rw [if_pos ⟨rfl, rfl, rfl, rfl⟩] at h
      match rest, h with
      | d :: rest2, h =>
        by_cases hw : wsChar d
        · simp [hw] at h
        · simp only [hw, if_neg, Bool.false_eq_true, ite_false] at h
          exact ⟨d, rest2, Or.inl rfl, by simpa using hw, by
            injection h with h2; exact h2.symm⟩
    · rw [if_neg h1] at h
      by_cases h2 : c1 = 'w' ∧ c2 = 'w' ∧ c3 = 'w'
      · obtain ⟨rfl, rfl, rfl⟩ := h2
        rw [if_pos ⟨rfl, rfl, rfl⟩] at h
        by_cases hw : wsChar c4
        · simp [hw] at h
        · simp only [hw, Bool.false_eq_true, ite_false] at h
          exact ⟨c4, rest, Or.inr rfl, by simpa using hw, by
            injection h with h3; exact h3.symm⟩
      · rw [if_neg h2] at h; cases h

theorem tryMatch_some_length {l r : List Char} (h : tryMatch l = some r) :
    r.length < l.length := by
  obtain ⟨d, rest2, hor, -, hr⟩ := tryMatch_some_inv h
  have hlen : r.length ≤ rest2.length := by
    rw [hr]; exact dropWhile_length_le _ rest2
  rcases hor with rfl | rfl <;> simp <;> omega

theorem tryMatch_ws_head {c : Char} (cs : List Char) (h : wsChar c = true) :
    tryMatch (c :: cs) = none := by
  have hh : c ≠ 'h' := by rintro rfl; exact absurd h (by decide)
  have hw : c ≠ 'w' := by rintro rfl; exact absurd h (by decide)
  match cs with
  | [] => rfl
  | [c2] => rfl
  | [c2, c3] => rfl
  | c2 :: c3 :: c4 :: rest =>
    rw [tryMatch_cons4, if_neg (by rintro ⟨rfl, -⟩; exact hh rfl),
      if_neg (by rintro ⟨rfl, -⟩; exact hw rfl)]

theorem removeUrlsAux_congr : ∀ (n : Nat) (l : List Char) (f1 f2 : Nat),
    l.length ≤ n → l.length ≤ f1 → l.length ≤ f2 →
    removeUrlsAux f1 l = removeUrlsAux f2 l := by
  intro n
  induction n with
  | zero =>
    intro l f1 f2 h1 _ _
    have hl : l = [] := List.eq_nil_of_length_eq_zero (Nat.le_zero.mp h1)
    subst hl
    cases f1 <;> cases f2 <;> rfl
  | succ n ih =>
    intro l f1 f2 hn h1 h2
    cases l with
    | nil => cases f1 <;> cases f2 <;> rfl
    | cons c cs =>
      obtain ⟨g1, rfl⟩ : ∃ g1, f1 = g1 + 1 := ⟨f1 - 1, by simp at h1; omega⟩
      obtain ⟨g2, rfl⟩ : ∃ g2, f2 = g2 + 1 := ⟨f2 - 1, by simp at h2; omega⟩
      simp only [removeUrlsAux]
      cases htm : tryMatch (c :: cs) with
      | some r =>
        have hlen := tryMatch_some_length htm
        simp only [List.length_cons] at hlen hn h1 h2
        exact ih r g1 g2 (by omega) (by omega) (by omega)
      | none =>
        simp only [List.length_cons] at hn h1 h2
        rw [ih cs g1 g2 (by omega) (by omega) (by omega)]

theorem removeUrls_cons_match {c : Char} {cs r : List Char}
    (h : tryMatch (c :: cs) = some r) :
    removeUrls (c :: cs) = removeUrls r := by
  have hlen := tryMatch_some_length h
  simp only [List.length_cons] at hlen
  show removeUrlsAux (c :: cs).length (c :: cs) = removeUrlsAux r.length r
  simp only [List.length_cons, removeUrlsAux, h]
  exact removeUrlsAux_congr r.length r cs.length r.length (le_refl _)
    (by omega) (le_refl _)

theorem removeUrls_cons_nomatch {c : Char} {cs : List Char}
    (h : tryMatch (c :: cs) = none) :
    removeUrls (c :: cs) = c :: removeUrls cs := by
  show removeUrlsAux (c :: cs).length (c :: cs) = c :: removeUrlsAux cs.length cs
  simp only [List.length_cons, removeUrlsAux, h]

theorem removeUrls_eq_cons {cs : List Char} {a : Char} {t : List Char}
    (h : removeUrls cs = a :: t) (ha : wsChar a = false) :
    ∃ cs2, cs = a :: cs2 ∧ tryMatch cs = none ∧ removeUrls cs2 = t := by
  cases cs with
  | nil => cases h
  | cons d cs2 =>
    cases htm : tryMatch (d :: cs2) with
    | none =>
      rw [removeUrls_cons_nomatch htm] at h
      injection h with e1 e2
      subst e1
      exact ⟨cs2, rfl, rfl, e2⟩
    | some r =>
      exfalso
      rw [removeUrls_cons_match htm] at h
      obtain ⟨e, rest2, -, -, hr2⟩ := tryMatch_some_inv htm
      subst hr2
      rcases dropWhile_head_or (fun c => !wsChar c) rest2 with hnil | ⟨w, ds, hw, hpw⟩
      · rw [show dropNonWs rest2 = [] from hnil] at h; cases h
      · have hwws : wsChar w = true := by simpa using hpw
        rw [show dropNonWs rest2 = w :: ds from hw] at h
        rw [removeUrls_cons_nomatch (tryMatch_ws_head ds hwws)] at h
        injection h with e1 _
        subst e1
        rw [hwws] at ha
        cases ha

theorem tryMatch_removeUrls {c : Char} {cs : List Char}
    (h : tryMatch (c :: cs) = none) :
    tryMatch (c :: removeUrls cs) = none := by
  cases h2 : tryMatch (c :: removeUrls cs) with
  | none => rfl
  | some r =>
    exfalso
    obtain ⟨d, rest2, hor, hws, -⟩ := tryMatch_some_inv h2
    rcases hor with heq | heq
    · injection heq with e1 hcs
      subst e1
      obtain ⟨cs2, rfl, -, h3⟩ := removeUrls_eq_cons hcs (by decide)
      obtain ⟨cs3, rfl, -, h4⟩ := removeUrls_eq_cons h3 (by decide)
      obtain ⟨cs4, rfl, -, h5⟩ := removeUrls_eq_cons h4 (by decide)
      obtain ⟨cs5, rfl, -, -⟩ := removeUrls_eq_cons h5 hws
      rw [tryMatch_http d cs5 hws] at h
      cases h
    · injection heq with e1 hcs
      subst e1
      obtain ⟨cs2, rfl, -, h3⟩ := removeUrls_eq_cons hcs (by decide)
      obtain ⟨cs3, rfl, -, h4⟩ := removeUrls_eq_cons h3 (by decide)
      obtain ⟨cs4, rfl, -, -⟩ := removeUrls_eq_cons h4 hws
      rw [tryMatch_www d cs4 hws] at h
      cases h

theorem urlFree_removeUrls : ∀ (n : Nat) (l : List Char), l.length ≤ n →
    urlFree (removeUrls l) = true := by
  intro n
  induction n with
  | zero =>
    intro l h
    have hl : l = [] := List.eq_nil_of_length_eq_zero (Nat.le_zero.mp h)
    subst hl; rfl
  | succ n ih =>
    intro l h
    cases l with
    | nil => rfl
    | cons c cs =>
      simp only [List.length_cons] at h
      cases htm : tryMatch (c :: cs) with
      | some r =>
        rw [removeUrls_cons_match htm]
        have hlen := tryMatch_some_length htm
        simp only [List.length_cons] at hlen
        exact ih r (by omega)
      | none =>
        rw [removeUrls_cons_nomatch htm]
        have h1 := tryMatch_removeUrls htm
        have h2 := ih cs (by omega)
        simp [urlFree, h1, h2]

theorem removeUrls_of_urlFree : ∀ (l : List Char), urlFree l = true →
    removeUrls l = l := by
  intro l
  induction l with
  | nil => intro _; rfl
  | cons c cs ih =>
    intro h
    simp only [urlFree, Bool.and_eq_true, Option.isNone_iff_eq_none] at h
    obtain ⟨h1, h2⟩ := h
    rw [removeUrls_cons_nomatch h1, ih h2]

theorem rstrip_front : ∀ (l : List Char), ∃ t, rstripChars l ++ t = l := by
  intro l
  induction l with
  | nil => exact ⟨[], rfl⟩
  | cons c cs ih =>
    obtain ⟨t, ht⟩ := ih
    simp only [rstripChars]
    cases hr : rstripChars cs with
    | nil =>
      by_cases hw : wsChar c
      · simp only [hw, if_pos]
        exact ⟨c :: cs, rfl⟩
      · simp only [hw, Bool.false_eq_true, ite_false, List.cons_append,
          List.nil_append]
        rw [hr] at ht
        simp only [List.nil_append] at ht
        exact ⟨t, by rw [ht]⟩
    | cons d ds =>
      rw [hr] at ht
      exact ⟨t, by simp [List.cons_append, ht]⟩

theorem rstrip_head_shape (c : Char) (cs : List Char) :
    rstripChars (c :: cs) = [] ∨ ∃ ds, rstripChars (c :: cs) = c :: ds := by
  simp only [rstripChars]
  cases rstripChars cs with
  | nil =>
    by_cases hw : wsChar c
    · left; simp [hw]
    · right; exact ⟨[], by simp [hw]⟩
  | cons d ds => right; exact ⟨d :: ds, rfl⟩

theorem tryMatch_of_front {c : Char} {p t l : List Char}
    (hl : tryMatch (c :: l) = none) (hpt : p ++ t = l) :
    tryMatch (c :: p) = none := by
  cases h2 : tryMatch (c :: p) with
  | none => rfl
  | some r =>
    exfalso
    obtain ⟨d, rest2, hor, hws, -⟩ := tryMatch_some_inv h2
    rcases hor with heq | heq
    · injection heq with e1 hp
      subst e1
      subst hp
      rw [show ('t' :: 't' :: 'p' :: d :: rest2) ++ t
          = 't' :: 't' :: 'p' :: d :: (rest2 ++ t) from rfl] at hpt
      rw [← hpt, tryMatch_http d (rest2 ++ t) hws] at hl
      cases hl
    · injection heq with e1 hp
      subst e1
      subst hp
      rw [show ('w' :: 'w' :: d :: rest2) ++ t
          = 'w' :: 'w' :: d :: (rest2 ++ t) from rfl] at hpt
      rw [← hpt, tryMatch_www d (rest2 ++ t) hws] at hl
      cases hl

theorem urlFree_tail {c : Char} {cs : List Char}
    (h : urlFree (c :: cs) = true) :
    tryMatch (c :: cs) = none ∧ urlFree cs = true := by
  simpa only [urlFree, Bool.and_eq_true, Option.isNone_iff_eq_none] using h

theorem urlFree_dropWhile (p : Char → Bool) :
    ∀ (l : List Char), urlFree l = true → urlFree (l.dropWhile p) = true := by
  intro l
  induction l with
  | nil => intro _; rfl
  | cons c cs ih =>
    intro h
    obtain ⟨h1, h2⟩ := urlFree_tail h
    by_cases hp : p c
    · rw [List.dropWhile_cons, if_pos (by simpa using hp)]
      exact ih h2
    · rw [List.dropWhile_cons, if_neg (by simpa using hp)]
      exact h

theorem urlFree_rstrip : ∀ (l : List Char), urlFree l = true →
    urlFree (rstripChars l) = true := by
  intro l
  induction l with
  | nil => intro _; rfl
  | cons c cs ih =>
    intro h
    obtain ⟨h1, h2⟩ := urlFree_tail h
    simp only [rstripChars]
    cases hr : rstripChars cs with
    | nil =>
      by_cases hw : wsChar c
      · simp [hw, urlFree]
      · simp only [hw, Bool.false_eq_true, ite_false]
        simp [urlFree, show tryMatch [c] = none from rfl]
    | cons d ds =>
      have hf : urlFree (d :: ds) = true := by rw [← hr]; exact ih h2
      obtain ⟨t, hpt⟩ := rstrip_front cs
      rw [hr] at hpt
      have h3 : tryMatch (c :: d :: ds) = none := tryMatch_of_front h1 hpt
      simp [urlFree, h3, (urlFree_tail hf).1, (urlFree_tail hf).2]

theorem urlFree_strip (l : List Char) (h : urlFree l = true) :
    urlFree (stripChars l) = true :=
  urlFree_rstrip _ (urlFree_dropWhile wsChar l h)

theorem rstrip_idem : ∀ (l : List Char),
    rstripChars (rstripChars l) = rstripChars l := by
  intro l
  induction l with
  | nil => rfl
  | cons c cs ih =>
    simp only [rstripChars]
    cases hr : rstripChars cs with
    | nil =>
      by_cases hw : wsChar c
      · simp [hw, rstripChars]
      · simp [hw, rstripChars]
    | cons d ds =>
      have : rstripChars (d :: ds) = d :: ds := by rw [← hr]; exact ih
      simp only [rstripChars] at this ⊢
      cases hd : rstripChars ds with
      | nil =>
        rw [hd] at this
        by_cases hwd : wsChar d
        · rw [if_pos hwd] at this; cases this
        · rw [if_neg hwd] at this
          rw [if_neg hwd]
          injection this with _ e2
          simp [e2]
      | cons e es =>
        rw [hd] at this
        injection this with _ e2
        simp [e2]

theorem lstrip_rstrip_lstrip (l : List Char) :
    lstripChars (rstripChars (lstripChars l)) = rstripChars (lstripChars l) := by
  rcases dropWhile_head_or wsChar l with hnil | ⟨d, ds, hw, hpd⟩
  · rw [show lstripChars l = [] from hnil]; rfl
  · rw [show lstripChars l = d :: ds from hw]
    rcases rstrip_head_shape d ds with h0 | ⟨es, he⟩
    · rw [h0]; rfl
    · rw [he]
      show (d :: es).dropWhile wsChar = d :: es
      rw [List.dropWhile_cons, if_neg (by simp [hpd])]

theorem stripChars_idem (l : List Char) :
    stripChars (stripChars l) = stripChars l := by
  show rstripChars (lstripChars (rstripChars (lstripChars l)))
    = rstripChars (lstripChars l)
  rw [lstrip_rstrip_lstrip, rstrip_idem]

theorem stripChars_length_le (l : List Char) :
    (stripChars l).length ≤ l.length := by
  obtain ⟨t, ht⟩ := rstrip_front (lstripChars l)
  have h1 : (stripChars l).length ≤ (lstripChars l).length := by
    show (rstripChars (lstripChars l)).length ≤ (lstripChars l).length
    have h2 := congrArg List.length ht
    simp only [List.length_append] at h2
    omega
  exact le_trans h1 (dropWhile_length_le wsChar l)

/-- C9: the text-cleaning function is idempotent: for every string `x`,
`clean_text (clean_text x) = clean_text x`, where `clean_text` removes
substrings matching the URL pattern and strips surrounding whitespace. -/
theorem clean_text_idempotent (s : String) :
    clean_text (clean_text s) = clean_text s := by
  show (⟨stripChars (removeUrls (stripChars (removeUrls s.data)))⟩ : String)
    = ⟨stripChars (removeUrls s.data)⟩
  have h1 : urlFree (removeUrls s.data) = true :=
    urlFree_removeUrls (s.data).length s.data (le_refl _)
  have h2 : urlFree (stripChars (removeUrls s.data)) = true :=
    urlFree_strip _ h1
  rw [removeUrls_of_urlFree _ h2, stripChars_idem]

/-- C1: wrapping a sequence-producing operation that raises a rate-limit
signal twice and then succeeds, `handle_rate_limit` delivers the final
successful sequence exactly once (after the re-delivered fragments of the
two failed passes), sleeps exactly twice between attempts, and the delay
for attempt `n` is `n * 5`, so the second delay is at least the first. -/
theorem hrl_two_rate_limits_then_success (α : Type) (p1 p2 full : List α) :
    (handle_rate_limit
      [(p1, .rateLimited), (p2, .rateLimited), (full, .done)] 3).yielded
      = p1 ++ p2 ++ full
    ∧ (handle_rate_limit
      [(p1, .rateLimited), (p2, .rateLimited), (full, .done)] 3).sleeps
      = [1 * 5, 2 * 5]
    ∧ (handle_rate_limit
      [(p1, .rateLimited), (p2, .rateLimited), (full, .done)] 3).final
      = HRLFinal.completed
    ∧ 1 * 5 ≤ 2 * 5 := by
  refine ⟨?_, ?_, ?_, by omega⟩ <;>
    simp [handle_rate_limit, hrlGo, List.append_assoc]

/-- C2 counterexample: fed a generator that raises the rate-limit signal
on every pass, `handle_rate_limit` does not surface a terminal failure
value after exhausting its attempts - it re-raises the raw rate-limit
error past its boundary. -/
theorem hrl_exhaustion_reraises_cex :
    (handle_rate_limit
      [(([] : List Nat), .rateLimited), ([], .rateLimited),
       ([], .rateLimited), ([], .rateLimited)] 3).final
      = HRLFinal.raisedRateLimit := by decide

/-- C2 (amended): the single-call wrapper `fetch_with_retry` invokes an
always-rate-limited operation exactly `max_tries = 3` times, then returns
the failure value `none` without raising (sleeping only between
attempts); the sequence wrapper `handle_rate_limit`, by contrast,
re-raises the raw rate-limit error once its `max_retries = 3` retries
(with escalating sleeps 5, 10, 15) are exhausted. -/
theorem retry_exhaustion_amended (α β : Type) (hint : Nat → Option Nat)
    (a b c d : List β) :
    (fetch_with_retry
      (fun n => (CallResult.rateLimited (hint n) : CallResult α)) 3).value
      = none
    ∧ (fetch_with_retry
      (fun n => (CallResult.rateLimited (hint n) : CallResult α)) 3).calls
      = 3
    ∧ (fetch_with_retry
      (fun n => (CallResult.rateLimited (hint n) : CallResult α)) 3).sleeps
      = [(hint 0).getD 30, (hint 1).getD 30]
    ∧ handle_rate_limit
        [(a, .rateLimited), (b, .rateLimited),
         (c, .rateLimited), (d, .rateLimited)] 3
      = ⟨a ++ b ++ c ++ d, [5, 10, 15], .raisedRateLimit⟩ := by
  refine ⟨?_, ?_, ?_, ?_⟩ <;>
    simp [fetch_with_retry, fwrGo, handle_rate_limit, hrlGo, List.append_assoc]

/-- C6 counterexample: on a non-rate-limit failure the sequence wrapper
`handle_rate_limit` does not sleep and retry - it re-raises immediately
(no sleep is performed and the items of the follow-up pass are never
delivered). -/
theorem hrl_other_failure_no_retry_cex :
    handle_rate_limit [(([] : List Nat), .failure), ([7], .done)] 3
      = ⟨[], [], .raisedOther⟩ := by decide

/-- C6 (amended): only the single-call wrapper retries non-rate-limit
transient failures - `fetch_with_retry` sleeps the short fixed delay 5
and re-invokes the operation up to the attempt cap (here: two failures,
then success on the third and last attempt); the sequence wrapper
`handle_rate_limit` re-raises any non-rate-limit failure immediately,
without sleeping or retrying. -/
theorem transient_failure_retry_amended (α β : Type) (v : α)
    (xs ys : List β) :
    fetch_with_retry
      (fun n => if n < 2 then CallResult.failed else CallResult.ok v) 3
      = ⟨some v, 3, [5, 5]⟩
    ∧ handle_rate_limit [(xs, .failure), (ys, .done)] 3
      = ⟨xs, [], .raisedOther⟩ := by
  constructor <;> simp [fetch_with_retry, fwrGo, handle_rate_limit, hrlGo]

/-- C5: over the ordered community list A, B, C where B's traversal
raises Forbidden (or NotFound), `fetch_subreddit_content` abandons B
after a single pass (no retry attempt is consumed), keeps every record
emitted for A, continues with C, and the final output is exactly A's
records followed by C's records. -/
theorem forbidden_community_isolation (α : Type) (rowsA rowsC : List α) :
    (fetch_subreddit_content
      [fun _ => ⟨rowsA, .success⟩, fun _ => ⟨[], .forbidden⟩,
       fun _ => ⟨rowsC, .success⟩]).rows = rowsA ++ rowsC
    ∧ (fetch_subreddit_content
      [fun _ => ⟨rowsA, .success⟩, fun _ => ⟨[], .forbidden⟩,
       fun _ => ⟨rowsC, .success⟩]).subs
      = [(SubStatus.completed, 1), (SubStatus.skippedForbidden, 1),
         (SubStatus.completed, 1)]
    ∧ (fetch_subreddit_content
      [fun _ => ⟨rowsA, .success⟩, fun _ => ⟨[], .notFound⟩,
       fun _ => ⟨rowsC, .success⟩]).rows = rowsA ++ rowsC
    ∧ (fetch_subreddit_content
      [fun _ => ⟨rowsA, .success⟩, fun _ => ⟨[], .notFound⟩,
       fun _ => ⟨rowsC, .success⟩]).subs
      = [(SubStatus.completed, 1), (SubStatus.skippedNotFound, 1),
         (SubStatus.completed, 1)] := by
  refine ⟨?_, ?_, ?_, ?_⟩ <;>
    simp [fetch_subreddit_content, runSubreddit, runSubredditAux]

/-- C7 counterexample: `"  abcdefgh  "` is 12 characters long - not
shorter than the 10-character threshold - and the detector reports
English, yet `is_english` rejects it: the threshold is applied to the
whitespace-stripped text (8 characters here), not to the text itself. -/
theorem is_english_padded_short_cex :
    10 ≤ ("  abcdefgh  " : String).length
    ∧ is_english (fun _ => some "en") "  abcdefgh  " = false := by decide

/-- C7 (amended): `is_english` returns false (without raising) whenever
the *whitespace-stripped* text is shorter than 10 characters - hence in
particular whenever the raw text is shorter than 10 characters -
regardless of language; when the stripped text meets the threshold it
accepts exactly when the detector returns the target language `"en"`,
and a detector failure (`none`) yields false rather than an error. -/
theorem is_english_spec_amended (detect : String → Option String)
    (text : String) :
    ((pyStrip text).length < 10 → is_english detect text = false)
    ∧ (text.length < 10 → is_english detect text = false)
    ∧ (10 ≤ (pyStrip text).length →
        is_english detect text
          = match detect text with
            | some lang => lang == "en"
            | none => false) := by
  refine ⟨?_, ?_, ?_⟩
  · intro h
    simp [is_english, h]
  · intro h
    have hs : (pyStrip text).length ≤ text.length := by
      show (stripChars text.data).length ≤ text.length
      exact stripChars_length_le text.data
    simp [is_english, Nat.lt_of_le_of_lt hs h]
  · intro h
    simp [is_english, Nat.not_lt.mpr h]

/-- Witness for the C7 amended theorem at a concrete input: a 24-char
text whose stripped form meets the threshold, with a detector answering
`"en"`, is accepted. -/
theorem is_english_spec_amended_witness :
    is_english (fun _ => some "en") "this text is long enough" = true := by
  have h := (is_english_spec_amended (fun _ => some "en")
    "this text is long enough").2.2 (by decide)
  exact h.trans (by decide)

/-- C8 counterexample: the materialized table's column list is not
`[type, title, text, upvotes, date, post_flair, user_flair, parent_text,
community, category]` - the dictionary order of `create_data_container`
puts `text` first and the community column is named `subreddit`. -/
theorem table_columns_cex :
    (toTable create_data_container).map Prod.fst
      ≠ ["type", "title", "text", "upvotes", "date", "post_flair",
         "user_flair", "parent_text", "community", "category"] := by decide

/-- C8 (amended): the materialized artifact is a single table whose
columns are exactly `[text, title, upvotes, type, date, post_flair,
user_flair, parent_text, subreddit, category]` in that order (the
community column is named `subreddit`); each emission path appends its
Record as one row at the end of the table (emission order), and absent
optional fields hold the null marker (`parent_text`/`post_flair` of a
post's row, `title`/`post_flair` of a comment's row). -/
theorem table_columns_amended (d : DataContainer) :
    (toTable d).map Prod.fst
      = ["text", "title", "upvotes", "type", "date", "post_flair",
         "user_flair", "parent_text", "subreddit", "category"]
    ∧ (∀ t x u dt pf uf sr cat,
        (appendPost d t x u dt pf uf sr cat).type = d.type ++ ["post"]
        ∧ (appendPost d t x u dt pf uf sr cat).parent_text
          = d.parent_text ++ [none])
    ∧ (∀ x u dt uf pt sr cat,
        (appendComment d x u dt uf pt sr cat).type = d.type ++ ["comment"]
        ∧ (appendComment d x u dt uf pt sr cat).title = d.title ++ [none]
        ∧ (appendComment d x u dt uf pt sr cat).post_flair
          = d.post_flair ++ [none]) := by
  refine ⟨by simp [toTable], ?_, ?_⟩ <;> intros <;>
    simp [appendPost, appendComment]

theorem rect_appendPost (d : DataContainer) (t x : String) (u : Int)
    (dt : String) (pf uf : Option String) (sr cat : String)
    (h : rect d) : rect (appendPost d t x u dt pf uf sr cat) := by
  simp only [rect, appendPost, List.length_append, List.length_cons,
    List.length_nil] at h ⊢
  omega

theorem rect_appendComment (d : DataContainer) (x : String) (u : Int)
    (dt : String) (uf pt : Option String) (sr cat : String)
    (h : rect d) : rect (appendComment d x u dt uf pt sr cat) := by
  simp only [rect, appendComment, List.length_append, List.length_cons,
    List.length_nil] at h ⊢
  omega

theorem rect_processOneComment (detect : String → Option String)
    (localize : Nat → String) (sr cat : String) (d : DataContainer)
    (c : RComment) (h : rect d) :
    rect (processOneComment detect localize sr cat d c) := by
  unfold processOneComment
  cases c.body with
  | none => exact h
  | some b =>
    by_cases he : is_english detect (clean_text b)
    · simp only [he, if_pos]
      exact rect_appendComment _ _ _ _ _ _ _ _ h
    · simp only [he]
      simp only [Bool.false_eq_true, ite_false]
      exact h

theorem rect_foldl_comments (detect : String → Option String)
    (localize : Nat → String) (sr cat : String) :
    ∀ (cl : List RComment) (d : DataContainer), rect d →
      rect (cl.foldl (processOneComment detect localize sr cat) d) := by
  intro cl
  induction cl with
  | nil => intro d h; exact h
  | cons c cs ih =>
    intro d h
    exact ih _ (rect_processOneComment detect localize sr cat d c h)

theorem rect_process_comments (detect : String → Option String)
    (localize : Nat → String) (s : RSubmission) (cat : String)
    (d : DataContainer) (h : rect d) :
    rect (process_comments detect localize s cat d) :=
  rect_foldl_comments detect localize s.subreddit cat s.comments d h

theorem rect_process_submission (detect : String → Option String)
    (localize : Nat → String) (s : RSubmission) (cat : String)
    (loadOk : Bool) (d : DataContainer) (h : rect d) :
    rect (process_submission detect localize s cat loadOk d) := by
  unfold process_submission
  cases loadOk with
  | false => exact h
  | true =>
    simp only [if_pos]
    by_cases he : is_english detect
      (clean_text (pyStrip ((s.title).getD "" ++ "\n" ++ (s.selftext).getD "")))
    · simp only [he, if_pos]
      exact rect_process_comments _ _ _ _ _
        (rect_appendPost _ _ _ _ _ _ _ _ _ h)
    · simp only [he, Bool.false_eq_true, ite_false]
      exact h

theorem rect_applyOps (detect : String → Option String)
    (localize : Nat → String) :
    ∀ (ops : List ScrapeOp) (d : DataContainer), rect d →
      rect (applyOps detect localize ops d) := by
  intro ops
  induction ops with
  | nil => intro d h; exact h
  | cons op ops ih =>
    intro d h
    cases op with
    | post s cat ok =>
      exact ih _ (rect_process_submission detect localize s cat ok d h)
    | coms s cat =>
      exact ih _ (rect_process_comments detect localize s cat d h)

/-- C10: starting from `create_data_container`, after any sequence of
`process_submission` and `process_comments` operations the container
still holds exactly ten column lists and all ten have equal length -
each emission path (post Record, comment Record) appends exactly one
value to each column. -/
theorem container_stays_rectangular (detect : String → Option String)
    (localize : Nat → String) (ops : List ScrapeOp) :
    rect (applyOps detect localize ops create_data_container)
    ∧ (toTable (applyOps detect localize ops create_data_container)).length
      = 10 := by
  constructor
  · exact rect_applyOps detect localize ops create_data_container
      (by simp [rect, create_data_container])
  · simp [toTable]

/-- C3: for every emitted comment Record, if `parent_text` is set then
the immediate parent is itself a Comment (never the root Submission or
an unresolvable parent), `parent_text` is that parent's body after
cleaning, and the language filter accepts it; the `parent_text` stored by
the comment emission path is exactly this resolution. -/
theorem comment_parent_text_invariant (detect : String → Option String)
    (c : RComment) :
    (∀ t, resolveParentText detect c = some t →
      ∃ pid pb, c.parent = ParentRef.comm pid (some pb)
        ∧ t = clean_text pb ∧ is_english detect t = true)
    ∧ (∀ sid, c.parent = ParentRef.subm sid →
        resolveParentText detect c = none)
    ∧ (c.parent = ParentRef.missing → resolveParentText detect c = none)
    ∧ (∀ (localize : Nat → String) (sr cat : String) (d : DataContainer) b,
        c.body = some b → is_english detect (clean_text b) = true →
        processOneComment detect localize sr cat d c
          = appendComment d (clean_text b) c.score (localize c.created_utc)
              (orNone c.author_flair_text) (resolveParentText detect c)
              sr cat) := by
  refine ⟨?_, ?_, ?_, ?_⟩
  · intro t h
    cases hp : c.parent with
    | missing => simp [resolveParentText, hp] at h
    | subm sid => simp [resolveParentText, hp] at h
    | comm pid pbody =>
      simp only [resolveParentText, hp] at h
      by_cases hid : pid = c.id
      · rw [if_pos hid] at h; cases h
      · rw [if_neg hid] at h
        cases pbody with
        | none => cases h
        | some pb =>
          simp only at h
          by_cases he : is_english detect (clean_text pb) = true
          · rw [if_pos he] at h
            injection h with ht
            exact ⟨pid, pb, rfl, ht.symm, ht ▸ he⟩
          · rw [if_neg he] at h; cases h
  · intro sid hp
    simp [resolveParentText, hp]
  · intro hp
    simp [resolveParentText, hp]
  · intro localize sr cat d b hb he
    unfold processOneComment
    rw [hb]
    simp only [he, if_pos]

/-- Witness for C3 at a concrete comment whose parent is a Comment with
a long English body, using an always-English detector. -/
theorem comment_parent_text_invariant_witness :
    ∃ pid pb,
      (⟨"c1", some "child", 1, 0, none,
        ParentRef.comm "c0" (some "this is the parent comment body")⟩
        : RComment).parent = ParentRef.comm pid (some pb)
      ∧ "this is the parent comment body" = clean_text pb
      ∧ is_english (fun _ => some "en") "this is the parent comment body"
          = true :=
  (comment_parent_text_invariant (fun _ => some "en")
    (⟨"c1", some "child", 1, 0, none,
      ParentRef.comm "c0" (some "this is the parent comment body")⟩
      : RComment)).1
    "this is the parent comment body" (by decide)

/-- C4: a submission whose combined title+body text, cleaned, fails the
language filter contributes nothing: `process_submission` leaves the
container exactly as it was (no post Record, and the comment walk -
whatever comments the submission has - is never entered). -/
theorem rejected_submission_emits_nothing (detect : String → Option String)
    (localize : Nat → String) (s : RSubmission) (category : String)
    (loadOk : Bool) (d : DataContainer)
    (h : is_english detect
      (clean_text (pyStrip ((s.title).getD "" ++ "\n" ++ (s.selftext).getD "")))
      = false) :
    process_submission detect localize s category loadOk d = d := by
  unfold process_submission
  cases loadOk with
  | false => rfl
  | true => simp [h]

/-- Witness for C4 at a concrete submission whose cleaned combined text
("hi") is below the length threshold and hence rejected, even though its
attached comment would pass the filter. -/
theorem rejected_submission_emits_nothing_witness :
    process_submission (fun _ => some "en") (fun _ => "date")
      (⟨"s1", some "hi", some "", 3, 0, none, none, "phones",
        [⟨"c1", some "this is a long english comment body", 2, 0, none,
          ParentRef.subm "s1"⟩]⟩ : RSubmission)
      "hot" true create_data_container = create_data_container :=
  rejected_submission_emits_nothing (fun _ => some "en") (fun _ => "date")
    (⟨"s1", some "hi", some "", 3, 0, none, none, "phones",
      [⟨"c1", some "this is a long english comment body", 2, 0, none,
        ParentRef.subm "s1"⟩]⟩ : RSubmission)
    "hot" true create_data_container (by decide)
